import Mathlib

/-!
# Verification of the `ez-opendata` client library

Shallow embedding of `src/ez-opendata.js` (repository `tbo47.github.io`).
The library builds provider queries, performs one HTTP request per call and
reshapes the parsed JSON response.  The network step is modelled by passing
the parsed response value as an explicit argument; everything else is a pure
transformation and is translated function by function from the source.

JavaScript values occurring in those transformations are modelled by `Jval`
(JSON values plus `undefined`); objects are insertion-ordered association
lists, as JavaScript objects are for the non-index string keys used here.
Numbers are modelled as integers: every number handled by the library
(element ids, coordinates, counts) is integral.  Thrown `TypeError`s and
promise rejections are modelled by `Except JsErr`.
-/

/-- A JavaScript value as far as this library manipulates them:
`undefined`, JSON `null`, strings, (integral) numbers, objects and arrays. -/
inductive Jval where
  | undefined : Jval
  | null : Jval
  | str : String → Jval
  | num : Int → Jval
  | obj : List (String × Jval) → Jval
  | arr : List Jval → Jval

/-- A JavaScript object: an insertion-ordered association list. -/
abbrev Jobj := List (String × Jval)

/-- JavaScript truthiness: `undefined`, `null`, `""` and `0` are falsy;
every object and array (including `{}` and `[]`) is truthy. -/
def Jval.truthy : Jval → Bool
  | .undefined => false
  | .null => false
  | .str s => !(s == "")
  | .num n => !(n == 0)
  | .obj _ => true
  | .arr _ => true

/-- The decimal digit character for `n < 10`. -/
def digitChar (n : Nat) : Char := Char.ofNat (48 + n)

/-- Fuel-driven decimal digits of a natural number (the fuel bounds the
number of digits; it is spent one digit at a time, so `n + 1` always
suffices).  Structural recursion keeps the definition kernel-reducible. -/
def natToDigits : Nat → Nat → List Char
  | 0, _ => []
  | fuel + 1, n =>
    if n < 10 then [digitChar n]
    else natToDigits fuel (n / 10) ++ [digitChar (n % 10)]

/-- Decimal rendering of a natural number, as JavaScript renders it. -/
def natToString (n : Nat) : String := String.mk (natToDigits (n + 1) n)

/-- Decimal rendering of an integer, as JavaScript renders an integral
number in a template literal. -/
def intToString : Int → String
  | .ofNat n => natToString n
  | .negSucc n => "-" ++ natToString (n + 1)

/-- Fuel-driven stringification, following `ToString` coercion in a template
literal: `undefined`/`null` by name, strings verbatim, numbers in decimal,
plain objects as `[object Object]`, arrays joined by `,` with nullish
entries rendered empty.  The fuel only bounds array nesting depth; no
operation of this library stringifies an array. -/
def renderF : Nat → Jval → String
  | _, .undefined => "undefined"
  | _, .null => "null"
  | _, .str s => s
  | _, .num n => intToString n
  | _, .obj _ => "[object Object]"
  | 0, .arr _ => ""
  | fuel + 1, .arr es =>
    String.intercalate "," (es.map (fun e =>
      match e with
      | .undefined => ""
      | .null => ""
      | e => renderF fuel e))

/-- Stringification of a value interpolated into a template literal. -/
def Jval.render (v : Jval) : String := renderF 100 v

/-- Property read on an object: the value at the first matching key,
`undefined` when the key is absent. -/
def getProp (o : Jobj) (k : String) : Jval :=
  match o.lookup k with
  | some v => v
  | none => .undefined

/-- Property write on an object: update in place when the key exists
(JavaScript keeps the original insertion position), append otherwise. -/
def setProp (o : Jobj) (k : String) (v : Jval) : Jobj :=
  if (o.lookup k).isSome then
    o.map (fun kv => if kv.1 = k then (k, v) else kv)
  else
    o ++ [(k, v)]

/-- The `delete` operator: remove a key from an object. -/
def delProp (o : Jobj) (k : String) : Jobj :=
  o.filter (fun kv => kv.1 ≠ k)

/-- The keys of an object in insertion order, as `Object.keys` lists them
(first occurrence wins; a JavaScript object never has duplicate keys). -/
def jsKeys : Jobj → List String
  | [] => []
  | (k, _) :: rest => k :: (jsKeys rest).filter (fun k2 => k2 ≠ k)

/-- Own enumerable properties of a value, as the spread operator `{...v}`
enumerates them: an object contributes its fields, a string its indexed
characters, an array its indexed elements, everything else nothing. -/
def ownEnumerable : Jval → Jobj
  | .obj o => o
  | .str s => s.data.enum.map (fun ic => (natToString ic.1, Jval.str (String.mk [ic.2])))
  | .arr es => es.enum.map (fun iv => (natToString iv.1, iv.2))
  | _ => []

/-- Spreading a value into an object literal after existing fields:
`{...base, ...v}`.  Later keys overwrite in place, new keys append. -/
def spreadMerge (base : Jobj) (v : Jval) : Jobj :=
  (ownEnumerable v).foldl (fun acc kv => setProp acc kv.1 kv.2) base

/-- A thrown error or rejected promise. -/
inductive JsErr where
  | typeError : String → JsErr
  | rejected : Jval → JsErr

/-- Property access `v[k]` that, as in JavaScript, throws a `TypeError` on
`undefined` and `null`, reads fields of objects, indexed characters and
`length` of strings, indexed elements and `length` of arrays, and yields
`undefined` on other primitives. -/
def jsGet (v : Jval) (k : String) : Except JsErr Jval :=
  match v with
  | .undefined => .error (.typeError ("Cannot read properties of undefined (reading " ++ k ++ ")"))
  | .null => .error (.typeError ("Cannot read properties of null (reading " ++ k ++ ")"))
  | .obj o => .ok (getProp o k)
  | .str s =>
    if k = "length" then .ok (.num s.length)
    else
      match k.toNat? with
      | some i => .ok (if h : i < s.data.length then .str (String.mk [s.data.get ⟨i, h⟩]) else .undefined)
      | none => .ok .undefined
  | .arr es =>
    if k = "length" then .ok (.num es.length)
    else
      match k.toNat? with
      | some i => .ok (es.getD i .undefined)
      | none => .ok .undefined
  | .num _ => .ok .undefined

/-- Property access on a value already known not to be nullish (so the
access cannot throw); on nullish values it defaults to `undefined`. -/
def jsGetD (v : Jval) (k : String) : Jval :=
  match jsGet v k with
  | .ok w => w
  | .error _ => .undefined

/-- Array destructuring `const [a, b] = v` of the first two positions:
arrays and strings are iterable, everything else throws a `TypeError`. -/
def destructure2 (v : Jval) : Except JsErr (Jval × Jval)
  :=
  match v with
  | .arr es => .ok (es.getD 0 .undefined, es.getD 1 .undefined)
  | .str s =>
    .ok ((if h : 0 < s.data.length then .str (String.mk [s.data.get ⟨0, h⟩]) else .undefined),
         (if h : 1 < s.data.length then .str (String.mk [s.data.get ⟨1, h⟩]) else .undefined))
  | _ => .error (.typeError "object is not iterable")

/-- `String.prototype.split` at a single-character separator, on the
character list: splitting the empty string yields `[[]]`, and every
separator occurrence opens a new chunk. -/
def jsSplitList : List Char → Char → List (List Char)
  | [], _ => [[]]
  | c :: rest, sep =>
    let r := jsSplitList rest sep
    if c = sep then [] :: r
    else
      match r with
      | h :: t => (c :: h) :: t
      | [] => [[c]]

/-- `s.split(sep)` for a single-character separator. -/
def jsSplit (s : String) (sep : Char) : List String :=
  (jsSplitList s.data sep).map (fun l => String.mk l)

/-- `s.trim()`: strip whitespace from both ends (ASCII whitespace; the
library only trims cuisine tokens). -/
def jsTrim (s : String) : String :=
  String.mk (((s.data.dropWhile Char.isWhitespace).reverse.dropWhile Char.isWhitespace).reverse)

/-- `s.toLowerCase()` (ASCII lowering; OpenStreetMap cuisine values are
ASCII). -/
def jsToLower (s : String) : String := String.mk (s.data.map Char.toLower)

/-- `s.startsWith(p)`. -/
def jsStartsWith (s p : String) : Bool := p.data.isPrefixOf s.data

/-- Strict comparison `v === "yes"` (true exactly on the string `yes`). -/
def isStrYes : Jval → Bool
  | .str v => v == "yes"
  | _ => false

/-! ## `openstreetmapGetPOIs` and its callers -/

/-- The Overpass QL fragment one category contributes to the query
(`node`/`way`/`relation` filters, verbatim from the template literal). -/
def questPart (bbox key value : String) : String :=
  "\n          node[\"" ++ key ++ "\"=\"" ++ value ++ "\"](" ++ bbox ++ ");" ++
  "\n          way[\"" ++ key ++ "\"=\"" ++ value ++ "\"](" ++ bbox ++ ");" ++
  "\n          relation[\"" ++ key ++ "\"=\"" ++ value ++ "\"](" ++ bbox ++ ");"

/-- The `categories.forEach(([key, value]) => ...)` loop accumulating the
query: each category is array-destructured (a non-iterable category value
throws, aborting the whole call) and its fragment appended. -/
def buildQuest (bbox : String) (categories : List Jval) : Except JsErr String :=
  categories.foldlM
    (fun quest cat => do
      let kv ← destructure2 cat
      pure (quest ++ questPart bbox kv.1.render kv.2.render))
    ""

/-- The full Overpass request body wrapped around the accumulated
fragments. -/
def overpassBody (quest : String) : String :=
  "\n        [out:json][timeout:25];\n        (\n            " ++ quest ++
  "\n        );\n        out body;\n        >;\n        out skel qt;"

/-- The body of the `.map` callback of `openstreetmapGetPOIs`:
`p = {...p, ...p.tags}`, `delete p.tags`, derive the type used by the URLs
(`"relation"` when `members` is truthy, else `p.type`), normalize
`website` from `contact:website`, then attach `osm_url` and
`osm_url_edit`.  Elements reaching the callback have already been read for
`p.tags` by the filter, so the accesses cannot throw and `jsGetD` agrees
with `jsGet` on them. -/
def mergeTags (p0 : Jval) : Jobj :=
  delProp (spreadMerge (ownEnumerable p0) (jsGetD p0 "tags")) "tags"

/-- `const type = p.members ? "relation" : p.type` — the type string the
derived URLs use (note the source binds it to a local, it never writes it
back to `p.type`). -/
def elemType (p : Jobj) : String :=
  if (getProp p "members").truthy then "relation" else (getProp p "type").render

/-- `if (!p.website && p["contact:website"]) p.website = p["contact:website"]`. -/
def websiteStep (p : Jobj) : Jobj :=
  if !(getProp p "website").truthy && (getProp p "contact:website").truthy then
    setProp p "website" (getProp p "contact:website")
  else p

def processElement (p0 : Jval) : Jobj :=
  let p := mergeTags p0
  let ty := elemType p
  let p := websiteStep p
  let p := setProp p "osm_url"
    (.str ("https://www.openstreetmap.org/" ++ ty ++ "/" ++ (getProp p "id").render))
  setProp p "osm_url_edit"
    (.str ("https://www.openstreetmap.org/edit?" ++ ty ++ "=" ++ (getProp p "id").render))

/-- `data.elements.filter((p) => p.tags)`: keep the elements whose `tags`
value is truthy, evaluating the accesses left to right (a nullish element
makes the access throw and the call reject). -/
def filterTruthyTags : List Jval → Except JsErr (List Jval)
  | [] => .ok []
  | p :: rest => do
    let t ← jsGet p "tags"
    let kept ← filterTruthyTags rest
    pure (if t.truthy then p :: kept else kept)

/-- `openstreetmapGetPOIs(bbox, categories)` given the parsed response
`data` of the POST request: build the Overpass query (this may already
throw, see `destructure2`), then filter the response elements to those
with truthy `tags` and normalize each retained element. -/
def openstreetmapGetPOIs (bbox : String) (categories : List Jval) (data : Jval) :
    Except JsErr (List Jobj) := do
  let quest ← buildQuest bbox categories
  let _body := overpassBody quest
  let elementsV ← jsGet data "elements"
  match elementsV with
  | .arr es => do
    let kept ← filterTruthyTags es
    pure (kept.map processElement)
  | _ => .error (.typeError "data.elements.filter is not a function")

/-- The category list `openstreetmapGetRestaurants` passes: two plain
objects `{key, value}` (not `[key, value]` pairs), verbatim from the
source. -/
def osmRestaurantCategories : List Jval :=
  [.obj [("key", .str "amenity"), ("value", .str "cafe")],
   .obj [("key", .str "amenity"), ("value", .str "restaurant")]]

/-- `openstreetmapGetRestaurants()`: delegates to `openstreetmapGetPOIs`
with the hardcoded demo bounding box and the object-shaped categories. -/
def openstreetmapGetRestaurants (data : Jval) : Except JsErr (List Jobj) :=
  openstreetmapGetPOIs "37.8,-122.3,37.8,-122.2" osmRestaurantCategories data

/-! ## `extractDiets` -/

/-- A diet label as stored in the JavaScript `Set`/`Map`: a string, or
`undefined` (`none`) when `key.split(":").at(1)` does not exist. -/
abbrev DietLabel := Option String

/-- `Set.prototype.add`: append unless already present (a JavaScript `Set`
keeps insertion order and first occurrences). -/
def setAdd (s : List DietLabel) (x : DietLabel) : List DietLabel :=
  if x ∈ s then s else s ++ [x]

/-- The semicolon-split of a POI's `cuisine` tag; nullish values are
skipped by the optional chaining (OpenStreetMap tag values are strings). -/
def jsCuisineList (poi : Jobj) : List String :=
  match getProp poi "cuisine" with
  | .str c => jsSplit c ';'
  | _ => []

/-- The labels the `cuisine` tag contributes, in the order the `forEach`
adds them: each token trimmed then lower-cased. -/
def cuisineTokens (poi : Jobj) : List DietLabel :=
  (jsCuisineList poi).map (fun tok => some (jsToLower (jsTrim tok)))

/-- The labels the `diet*`-key scan contributes, in `Object.keys` order:
keys starting with `diet` whose value is exactly `"yes"`, mapped to the
segment after the first colon (which may not exist). -/
def dietKeyLabels (poi : Jobj) : List DietLabel :=
  ((jsKeys poi).filter (fun k => jsStartsWith k "diet" && isStrYes (getProp poi k))).map
    (fun k => (jsSplit k ':').get? 1)

/-- The per-POI label `Set` as a deduplicated list in insertion order:
cuisine tokens first, then the diet-key labels. -/
def poiDiets (poi : Jobj) : List DietLabel :=
  (cuisineTokens poi ++ dietKeyLabels poi).foldl setAdd []

/-- One `Map` increment: bump an existing label's count in place, or
append the label with count 1 (`Map.set` keeps insertion order). -/
def mapIncr (m : List (DietLabel × Nat)) (d : DietLabel) : List (DietLabel × Nat) :=
  if (m.lookup d).isSome then
    m.map (fun e => if e.1 = d then (e.1, e.2 + 1) else e)
  else
    m ++ [(d, 1)]

/-- The relation of the final `.sort((a, b) => b[1] - a[1])`: `a` may
precede `b` exactly when its count is at least `b`'s (the comparator is
non-positive).  JavaScript's sort is stable, which `insertionSort` models
exactly. -/
def dietEntryGE (a b : DietLabel × Nat) : Prop := b.2 ≤ a.2

instance : DecidableRel dietEntryGE := fun a b => Nat.decLe b.2 a.2

instance : IsTotal (DietLabel × Nat) dietEntryGE := ⟨fun a b => Nat.le_total b.2 a.2⟩

instance : IsTrans (DietLabel × Nat) dietEntryGE :=
  ⟨fun _ _ _ h1 h2 => Nat.le_trans h2 h1⟩

/-- `extractDiets(pois)`: per POI collect the label set, aggregate counts
into an insertion-ordered map, then stably sort the entries by descending
count. -/
def extractDiets (pois : List Jobj) : List (DietLabel × Nat) :=
  let dietsMap := pois.foldl (fun m poi => (poiDiets poi).foldl mapIncr m) []
  List.insertionSort dietEntryGE dietsMap

/-- The stream of labels in the order `extractDiets` encounters them while
scanning the POI list (POIs in list order, within a POI in set insertion
order). -/
def dietStream (pois : List Jobj) : List DietLabel := pois.flatMap poiDiets

/-! ## Wikipedia, Wikimedia Commons -/

/-- The Wikipedia geosearch request URL, with the source's default
parameters. -/
def wikipediaQueryUrl (lat : Int := 37) (lon : Int := -122) (language : String := "en")
    (radius : Int := 10000) (limit : Int := 100) : String :=
  "https://" ++ language ++ ".wikipedia.org/w/api.php" ++
  "?action=query&list=geosearch&gscoord=" ++ intToString lat ++ "%7C" ++ intToString lon ++
  "&gsradius=" ++ intToString radius ++ "&gslimit=" ++ intToString limit ++
  "&origin=*&format=json"

/-- The `.map` callback of `wikipediaQuery`: read the record's title, then
assign `a.url` (a strict-mode write, throwing on a non-object record). -/
def wikipediaAttachUrl (language : String) (a : Jval) : Except JsErr Jval := do
  let t ← jsGet a "title"
  match a with
  | .obj o =>
    pure (Jval.obj (setProp o "url"
      (.str ("https://" ++ language ++ ".wikipedia.org/wiki/" ++ t.render))))
  | _ => .error (.typeError "cannot create property url on a primitive")

/-- `wikipediaQuery(lat, lon, language, radius, limit)` on a parsed
response `d`: map over `d.query.geosearch`, attaching to each record a
`url` built from the language and the record's title. -/
def wikipediaQuery (d : Jval) (lat : Int := 37) (lon : Int := -122) (language : String := "en")
    (radius : Int := 10000) (limit : Int := 100) : Except JsErr (List Jval) := do
  let _u := wikipediaQueryUrl lat lon language radius limit
  let q ← jsGet d "query"
  let gs ← jsGet q "geosearch"
  match gs with
  | .arr es => es.mapM (wikipediaAttachUrl language)
  | _ => .error (.typeError "d.query.geosearch.map is not a function")

/-- `wikimediaQuery` on a parsed response `d`: reject with `d.error` when
that value is truthy, otherwise return `d.query.geosearch || []`. -/
def wikimediaQuery (d : Jval) : Except JsErr Jval := do
  let e ← jsGet d "error"
  if e.truthy then
    .error (.rejected e)
  else do
    let q ← jsGet d "query"
    let gs ← jsGet q "geosearch"
    pure (if gs.truthy then gs else .arr [])

/-- `wikimediaInfoMultiplePages` on a parsed response `d`: returns
`d.query.pages`. -/
def wikimediaInfoMultiplePages (d : Jval) : Except JsErr Jval := do
  let q ← jsGet d "query"
  jsGet q "pages"

/-- The body of `wikimediaInfo` once the page entry has been looked up:
drill into `imageinfo[0].extmetadata` (every access on a missing page
throws) and return the flattened record with the five metadata fields
followed by the spread of the raw info block. -/
def wikimediaInfoOf (entry : Jval) : Except JsErr Jobj := do
  let ii ← jsGet entry "imageinfo"
  let info ← jsGet ii "0"
  let em ← jsGet info "extmetadata"
  let onv ← jsGet em "ObjectName"
  let name ← jsGet onv "value"
  let dt ← jsGet em "DateTime"
  let date ← jsGet dt "value"
  let cat ← jsGet em "Categories"
  let categories ← jsGet cat "value"
  let de ← jsGet em "ImageDescription"
  let description ← jsGet de "value"
  let ar ← jsGet em "Artist"
  let artistHtml ← jsGet ar "value"
  pure (spreadMerge
    [("name", name), ("date", date), ("categories", categories),
     ("description", description), ("artistHtml", artistHtml)]
    info)

/-- `wikimediaInfo(pageid)` on the parsed batch response `d`: look the page
up in the batch mapping (a numeric page id indexes by its decimal string)
and flatten its image info. -/
def wikimediaInfo (d : Jval) (pageid : Int) : Except JsErr Jobj := do
  let infos ← wikimediaInfoMultiplePages d
  let entry ← jsGet infos (intToString pageid)
  wikimediaInfoOf entry

/-! ## Specification-side definitions -/

/-- The specification's description of the diet labels of one POI (claim
C4): the trimmed, lower-cased tokens of the semicolon-split `cuisine`
value, together with, for every tag key starting with `diet` whose value
is exactly `"yes"`, the segment of the key after the first colon. -/
def poiHasDietLabel (poi : Jobj) (d : DietLabel) : Prop :=
  (∃ tok ∈ jsCuisineList poi, d = some (jsToLower (jsTrim tok))) ∨
  (∃ k ∈ jsKeys poi,
    (jsStartsWith k "diet" && isStrYes (getProp poi k)) = true ∧ d = (jsSplit k ':').get? 1)

instance (poi : Jobj) (d : DietLabel) : Decidable (poiHasDietLabel poi d) := by
  unfold poiHasDietLabel
  infer_instance

/-- First occurrences of a label stream, in stream order (proof
infrastructure: this is the key order of the aggregation map). -/
def firstOccur : List DietLabel → List DietLabel
  | [] => []
  | d :: rest => d :: (firstOccur rest).filter (fun x => x ≠ d)


/-- Occurrence count of a label in a list (proof infrastructure, defined
with the label's decidable equality). -/
def countLabel (d : DietLabel) : List DietLabel → Nat
  | [] => 0
  | x :: rest => (if x = d then 1 else 0) + countLabel d rest

/-- Index of the first occurrence of a label (length of the list when the
label is absent): the claims speak about first-encounter order. -/
def idxOfLabel (d : DietLabel) : List DietLabel → Nat
  | [] => 0
  | x :: rest => if x = d then 0 else idxOfLabel d rest + 1

/-! ## Concrete inputs used by witnesses and counterexamples -/

/-- A response element whose raw `type` is `"way"` although it carries
`members` (and one tag). -/
def c1elem : Jval :=
  .obj [("type", .str "way"), ("id", .num 1), ("members", .arr [.obj []]),
    ("tags", .obj [("name", .str "x")])]

/-- A well-formed (array-shaped) category list. -/
def cafeCats : List Jval := [.arr [.str "amenity", .str "cafe"]]

def c1data : Jval := .obj [("elements", .arr [c1elem])]

/-- A response element carrying an empty `tags` object: it has no tag at
all, yet its `tags` value is truthy. -/
def c3elem : Jval := .obj [("type", .str "node"), ("id", .num 7), ("tags", .obj [])]

def c3data : Jval := .obj [("elements", .arr [c3elem])]

/-- The POI list of the specification example for diet extraction. -/
def c4examplePois : List Jobj :=
  [[("cuisine", .str "Thai; thai")], [("cuisine", .str "italian")],
   [("diet:vegan", .str "yes")]]

/-- Two restaurants with distinct cuisines: a tie in the diet counts. -/
def c5pois : List Jobj := [[("cuisine", .str "thai")], [("cuisine", .str "italian")]]

/-- A normal tagged node element and its enclosing response. -/
def c6elem : Jval :=
  .obj [("type", .str "node"), ("id", .num 42),
    ("tags", .obj [("amenity", .str "cafe"), ("name", .str "Bar")])]

def c6data : Jval := .obj [("elements", .arr [c6elem])]

/-- A Commons geosearch body whose `error` field is present but `null`. -/
def c7obj : Jobj :=
  [("error", .null), ("query", .obj [("geosearch", .arr [.obj [("title", .str "pic")]])])]

/-- A Commons geosearch body with a (truthy) error object. -/
def c7errObj : Jobj :=
  [("error", .obj [("code", .str "maxlag")]),
   ("query", .obj [("geosearch", .arr [.obj [("title", .str "pic")]])])]

/-- A batch image-info response whose `pages` mapping holds only page
`10`. -/
def c8data : Jval :=
  .obj [("query", .obj [("pages", .obj [("10", .obj [("title", .str "File:A.jpg")])])])]

/-- A Wikipedia geosearch body with one hit. -/
def c9data : Jval :=
  .obj [("query", .obj [("geosearch",
    .arr [.obj [("pageid", .num 1), ("title", .str "Berkeley")]])])]

/-- One POI carrying the bare tag `diet=yes`. -/
def c10pois : List Jobj := [[("diet", .str "yes")]]

/-! ## Association-list lemmas -/

theorem lookup_cons_self {α β : Type} [BEq α] [LawfulBEq α] (k : α) (v : β) (l : List (α × β)) :
    ((k, v) :: l).lookup k = some v := by
  simp [List.lookup_cons]

theorem lookup_cons_of_ne {α β : Type} [BEq α] [LawfulBEq α] {a k : α} (v : β)
    (l : List (α × β)) (h : a ≠ k) : ((k, v) :: l).lookup a = l.lookup a := by
  simp [List.lookup_cons, beq_false_of_ne h]

theorem lookup_append_of_none {α β : Type} [BEq α] [LawfulBEq α] {l1 : List (α × β)}
    (l2 : List (α × β)) {a : α} (h : l1.lookup a = none) :
    (l1 ++ l2).lookup a = l2.lookup a := by
  induction l1 with
  | nil => rfl
  | cons kv rest ih =>
    obtain ⟨k0, v0⟩ := kv
    by_cases he : a = k0
    · rw [← he, lookup_cons_self] at h
      exact absurd h (by simp)
    · rw [← List.singleton_append, List.append_assoc, List.singleton_append,
        lookup_cons_of_ne _ _ he]
      rw [lookup_cons_of_ne _ _ he] at h
      exact ih h

theorem lookup_append_of_some {α β : Type} [BEq α] [LawfulBEq α] {l1 : List (α × β)}
    (l2 : List (α × β)) {a : α} {v : β} (h : l1.lookup a = some v) :
    (l1 ++ l2).lookup a = some v := by
  induction l1 with
  | nil => simp [List.lookup] at h
  | cons kv rest ih =>
    obtain ⟨k0, v0⟩ := kv
    by_cases he : a = k0
    · rw [← he] at h ⊢
      rw [lookup_cons_self] at h
      rw [← List.singleton_append, List.append_assoc, List.singleton_append, lookup_cons_self]
      exact h
    · rw [← List.singleton_append, List.append_assoc, List.singleton_append,
        lookup_cons_of_ne _ _ he]
      rw [lookup_cons_of_ne _ _ he] at h
      exact ih h

theorem lookup_isSome_iff_mem_keys {α β : Type} [BEq α] [LawfulBEq α]
    (l : List (α × β)) (a : α) : (l.lookup a).isSome = true ↔ a ∈ l.map Prod.fst := by
  induction l with
  | nil => simp [List.lookup]
  | cons kv rest ih =>
    obtain ⟨k0, v0⟩ := kv
    by_cases he : a = k0
    · subst he
      simp [lookup_cons_self]
    · rw [lookup_cons_of_ne _ _ he]
      simp [he, ih]

theorem mem_of_lookup_eq_some {α β : Type} [BEq α] [LawfulBEq α]
    {l : List (α × β)} {a : α} {v : β} (h : l.lookup a = some v) : (a, v) ∈ l := by
  induction l with
  | nil => simp [List.lookup] at h
  | cons kv rest ih =>
    obtain ⟨k0, v0⟩ := kv
    by_cases he : a = k0
    · subst he
      rw [lookup_cons_self] at h
      obtain rfl : v0 = v := by simpa using h
      exact List.mem_cons_self _ _
    · rw [lookup_cons_of_ne _ _ he] at h
      exact List.mem_cons_of_mem _ (ih h)

theorem lookup_eq_some_of_mem_nodup {α β : Type} [BEq α] [LawfulBEq α]
    {l : List (α × β)} {a : α} {v : β} (hnd : (l.map Prod.fst).Nodup)
    (h : (a, v) ∈ l) : l.lookup a = some v := by
  induction l with
  | nil => simp at h
  | cons kv rest ih =>
    obtain ⟨k0, v0⟩ := kv
    simp only [List.map_cons, List.nodup_cons] at hnd
    rcases List.mem_cons.mp h with he | hm
    · obtain ⟨rfl, rfl⟩ := Prod.mk.injEq .. ▸ he
      exact lookup_cons_self ..
    · have hne : a ≠ k0 := by
        rintro rfl
        exact hnd.1 (List.mem_map_of_mem Prod.fst hm)
      rw [lookup_cons_of_ne _ _ hne]
      exact ih hnd.2 hm

theorem mem_iff_lookup_of_nodup {α β : Type} [BEq α] [LawfulBEq α]
    {l : List (α × β)} (hnd : (l.map Prod.fst).Nodup) (a : α) (v : β) :
    (a, v) ∈ l ↔ l.lookup a = some v :=
  ⟨lookup_eq_some_of_mem_nodup hnd, mem_of_lookup_eq_some⟩

theorem lookup_map_update (o : Jobj) (k k2 : String) (v : Jval) :
    (o.map (fun kv => if kv.1 = k then (k, v) else kv)).lookup k2 =
      if k2 = k then (o.lookup k2).map (fun _ => v) else o.lookup k2 := by
  induction o with
  | nil => simp [List.lookup]
  | cons kv rest ih =>
    obtain ⟨k0, v0⟩ := kv
    by_cases he : k0 = k
    · subst he
      rw [List.map_cons, if_pos (show ((k0, v0) : String × Jval).1 = k0 from rfl)]
      by_cases h2 : k2 = k0
      · subst h2
        simp [lookup_cons_self, ih]
      · rw [lookup_cons_of_ne _ _ h2, lookup_cons_of_ne _ _ h2, ih]
    · rw [List.map_cons, if_neg (show ¬ ((k0, v0) : String × Jval).1 = k from he)]
      by_cases h2 : k2 = k0
      · subst h2
        have hne : ¬ k2 = k := fun hx => he (hx ▸ rfl)
        rw [lookup_cons_self, lookup_cons_self, if_neg hne]
      · rw [lookup_cons_of_ne _ _ h2, lookup_cons_of_ne _ _ h2, ih]

theorem lookup_setProp_self (o : Jobj) (k : String) (v : Jval) :
    (setProp o k v).lookup k = some v := by
  unfold setProp
  by_cases h : (o.lookup k).isSome
  · obtain ⟨w, hw⟩ := Option.isSome_iff_exists.mp h
    simp [h, lookup_map_update, hw]
  · have hn : o.lookup k = none := Option.not_isSome_iff_eq_none.mp h
    rw [if_neg h, lookup_append_of_none _ hn, lookup_cons_self]

theorem lookup_setProp_ne (o : Jobj) {k k2 : String} (v : Jval) (hne : k2 ≠ k) :
    (setProp o k v).lookup k2 = o.lookup k2 := by
  unfold setProp
  by_cases h : (o.lookup k).isSome
  · simp [h, lookup_map_update, hne]
  · rw [if_neg h]
    cases hl : o.lookup k2 with
    | some w => exact lookup_append_of_some _ hl
    | none =>
      rw [lookup_append_of_none _ hl, lookup_cons_of_ne _ _ hne]
      rfl

theorem getProp_setProp_self (o : Jobj) (k : String) (v : Jval) :
    getProp (setProp o k v) k = v := by
  unfold getProp
  rw [lookup_setProp_self]

theorem getProp_setProp_ne (o : Jobj) {k k2 : String} (v : Jval) (hne : k2 ≠ k) :
    getProp (setProp o k v) k2 = getProp o k2 := by
  unfold getProp
  rw [lookup_setProp_ne o v hne]

theorem lookup_delProp_self (o : Jobj) (k : String) : (delProp o k).lookup k = none := by
  induction o with
  | nil => rfl
  | cons kv rest ih =>
    obtain ⟨k0, v0⟩ := kv
    unfold delProp at ih ⊢
    rw [List.filter_cons]
    by_cases he : k0 = k
    · rw [if_neg]
      · exact ih
      · subst he
        simp
    · rw [if_pos (by exact decide_eq_true he), lookup_cons_of_ne _ _ (fun hh => he hh.symm)]
      exact ih

theorem lookup_delProp_ne (o : Jobj) {k k2 : String} (hne : k2 ≠ k) :
    (delProp o k).lookup k2 = o.lookup k2 := by
  induction o with
  | nil => rfl
  | cons kv rest ih =>
    obtain ⟨k0, v0⟩ := kv
    unfold delProp at ih ⊢
    rw [List.filter_cons]
    by_cases he : k0 = k
    · subst he
      rw [if_neg (by simp), lookup_cons_of_ne _ _ hne]
      exact ih
    · rw [if_pos (by exact decide_eq_true he)]
      by_cases h2 : k2 = k0
      · subst h2
        rw [lookup_cons_self, lookup_cons_self]
      · rw [lookup_cons_of_ne _ _ h2, lookup_cons_of_ne _ _ h2]
        exact ih

theorem getProp_delProp_ne (o : Jobj) {k k2 : String} (hne : k2 ≠ k) :
    getProp (delProp o k) k2 = getProp o k2 := by
  unfold getProp
  rw [lookup_delProp_ne o hne]

theorem lookup_foldl_setProp_not_mem (t : Jobj) (b : Jobj) (k : String)
    (h : k ∉ t.map Prod.fst) :
    (t.foldl (fun acc kv => setProp acc kv.1 kv.2) b).lookup k = b.lookup k := by
  induction t generalizing b with
  | nil => rfl
  | cons kv rest ih =>
    obtain ⟨k0, v0⟩ := kv
    simp only [List.map_cons, List.mem_cons, not_or] at h
    rw [List.foldl_cons, ih _ h.2, lookup_setProp_ne _ _ h.1]

theorem lookup_foldl_setProp_mem (t : Jobj) (b : Jobj) (k : String) (v : Jval)
    (hnd : (t.map Prod.fst).Nodup) (h : t.lookup k = some v) :
    (t.foldl (fun acc kv => setProp acc kv.1 kv.2) b).lookup k = some v := by
  induction t generalizing b with
  | nil => simp [List.lookup] at h
  | cons kv rest ih =>
    obtain ⟨k0, v0⟩ := kv
    simp only [List.map_cons, List.nodup_cons] at hnd
    by_cases he : k = k0
    · subst he
      rw [lookup_cons_self] at h
      obtain rfl : v0 = v := by simpa using h
      rw [List.foldl_cons,
        lookup_foldl_setProp_not_mem _ _ _ hnd.1, lookup_setProp_self]
    · rw [lookup_cons_of_ne _ _ he] at h
      rw [List.foldl_cons]
      exact ih _ hnd.2 h

/-! ## Structure of `processElement` -/

theorem lookup_websiteStep_ne (p : Jobj) {k : String} (h : k ≠ "website") :
    (websiteStep p).lookup k = p.lookup k := by
  unfold websiteStep
  split
  · exact lookup_setProp_ne _ _ h
  · rfl

theorem getProp_websiteStep_ne (p : Jobj) {k : String} (h : k ≠ "website") :
    getProp (websiteStep p) k = getProp p k := by
  unfold getProp
  rw [lookup_websiteStep_ne p h]

theorem lookup_tags_processElement (p0 : Jval) :
    (processElement p0).lookup "tags" = none := by
  simp only [processElement]
  rw [lookup_setProp_ne _ _ (by decide), lookup_setProp_ne _ _ (by decide),
    lookup_websiteStep_ne _ (by decide)]
  exact lookup_delProp_self _ _

theorem getProp_processElement_ne (p0 : Jval) {k : String} (h1 : k ≠ "osm_url")
    (h2 : k ≠ "osm_url_edit") (h3 : k ≠ "website") :
    getProp (processElement p0) k = getProp (mergeTags p0) k := by
  simp only [processElement]
  rw [getProp_setProp_ne _ _ h2, getProp_setProp_ne _ _ h1, getProp_websiteStep_ne _ h3]

theorem elemType_processElement (p0 : Jval) :
    elemType (processElement p0) = elemType (mergeTags p0) := by
  unfold elemType
  rw [getProp_processElement_ne p0 (by decide) (by decide) (by decide),
    getProp_processElement_ne p0 (by decide) (by decide) (by decide)]

theorem getProp_id_processElement (p0 : Jval) :
    getProp (processElement p0) "id" = getProp (mergeTags p0) "id" :=
  getProp_processElement_ne p0 (by decide) (by decide) (by decide)

theorem getProp_processElement_osm_url (p0 : Jval) :
    getProp (processElement p0) "osm_url" =
      .str ("https://www.openstreetmap.org/" ++ elemType (mergeTags p0) ++ "/" ++
        (getProp (mergeTags p0) "id").render) := by
  simp only [processElement]
  rw [getProp_setProp_ne _ _ (by decide), getProp_setProp_self,
    getProp_websiteStep_ne _ (by decide)]

theorem getProp_processElement_osm_url_edit (p0 : Jval) :
    getProp (processElement p0) "osm_url_edit" =
      .str ("https://www.openstreetmap.org/edit?" ++ elemType (mergeTags p0) ++ "=" ++
        (getProp (mergeTags p0) "id").render) := by
  simp only [processElement]
  rw [getProp_setProp_self, getProp_setProp_ne _ _ (by decide),
    getProp_websiteStep_ne _ (by decide)]

theorem getProp_processElement_tag (p0 : Jval) (tagsObj : Jobj) {k : String} {v : Jval}
    (htags : jsGetD p0 "tags" = .obj tagsObj) (hnd : (tagsObj.map Prod.fst).Nodup)
    (hk : tagsObj.lookup k = some v) (h0 : k ≠ "tags") (h1 : k ≠ "osm_url")
    (h2 : k ≠ "osm_url_edit") (h3 : k ≠ "website") :
    getProp (processElement p0) k = v := by
  rw [getProp_processElement_ne p0 h1 h2 h3]
  unfold mergeTags getProp
  rw [lookup_delProp_ne _ h0]
  unfold spreadMerge
  rw [htags]
  rw [show ownEnumerable (.obj tagsObj) = tagsObj from rfl]
  rw [lookup_foldl_setProp_mem _ _ _ _ hnd hk]

/-! ## Inversion of the `openstreetmapGetPOIs` pipeline -/

theorem filterTruthyTags_ok {es kept : List Jval} (h : filterTruthyTags es = .ok kept) :
    kept.length = es.countP (fun p => (jsGetD p "tags").truthy) ∧
      ∀ p ∈ es, (jsGetD p "tags").truthy → p ∈ kept := by
  induction es generalizing kept with
  | nil =>
    obtain rfl : [] = kept := Except.ok.inj h
    simp
  | cons p rest ih =>
    unfold filterTruthyTags at h
    cases hg : jsGet p "tags" with
    | error e =>
      rw [hg] at h
      exact Except.noConfusion h
    | ok t =>
      rw [hg] at h
      cases hr : filterTruthyTags rest with
      | error e =>
        rw [hr] at h
        exact Except.noConfusion h
      | ok kept' =>
        rw [hr] at h
        obtain rfl : (if t.truthy then p :: kept' else kept') = kept := Except.ok.inj h
        have hD : jsGetD p "tags" = t := by simp [jsGetD, hg]
        obtain ⟨ihl, ihm⟩ := ih hr
        constructor
        · by_cases ht : t.truthy <;>
            simp [ht, hD, List.countP_cons, ihl]
        · intro q hq hqt
          rcases List.mem_cons.mp hq with rfl | hq2
          · rw [hD] at hqt
            simp [hqt]
          · have := ihm q hq2 hqt
            by_cases ht : t.truthy <;> simp [ht, this]

theorem openstreetmapGetPOIs_ok {bbox : String} {cats : List Jval} {data : Jval}
    {out : List Jobj} (h : openstreetmapGetPOIs bbox cats data = .ok out) :
    ∃ es kept, jsGet data "elements" = .ok (.arr es) ∧
      filterTruthyTags es = .ok kept ∧ out = kept.map processElement := by
  unfold openstreetmapGetPOIs at h
  cases hq : buildQuest bbox cats with
  | error e =>
    rw [hq] at h
    exact Except.noConfusion h
  | ok quest =>
    rw [hq] at h
    cases he : jsGet data "elements" with
    | error e =>
      rw [he] at h
      exact Except.noConfusion h
    | ok ev =>
      rw [he] at h
      cases ev with
      | arr es =>
        have h2 : (do
            let kept ← filterTruthyTags es
            pure (List.map processElement kept) : Except JsErr (List Jobj)) = Except.ok out := h
        cases hk : filterTruthyTags es with
        | error e =>
          rw [hk] at h2
          exact Except.noConfusion h2
        | ok kept =>
          rw [hk] at h2
          exact ⟨es, kept, rfl, hk, (Except.ok.inj h2).symm⟩
      | undefined => exact Except.noConfusion h
      | null => exact Except.noConfusion h
      | str s => exact Except.noConfusion h
      | num n => exact Except.noConfusion h
      | obj o => exact Except.noConfusion h

/-! ## Per-POI label sets -/

theorem mem_setAdd {s : List DietLabel} {x y : DietLabel} :
    x ∈ setAdd s y ↔ x ∈ s ∨ x = y := by
  unfold setAdd
  by_cases h : y ∈ s
  · simp only [h, if_true]
    constructor
    · exact fun hx => Or.inl hx
    · rintro (hx | rfl)
      · exact hx
      · exact h
  · simp [h]

theorem mem_foldl_setAdd (l : List DietLabel) (s : List DietLabel) (x : DietLabel) :
    x ∈ l.foldl setAdd s ↔ x ∈ s ∨ x ∈ l := by
  induction l generalizing s with
  | nil => simp
  | cons y rest ih =>
    rw [List.foldl_cons, ih, mem_setAdd]
    simp only [List.mem_cons]
    tauto

theorem nodup_setAdd {s : List DietLabel} (h : s.Nodup) (y : DietLabel) :
    (setAdd s y).Nodup := by
  unfold setAdd
  by_cases hy : y ∈ s
  · simpa [hy] using h
  · simp only [hy, if_false]
    exact List.Nodup.append h (List.nodup_singleton y) (by simpa using hy)

theorem nodup_foldl_setAdd (l : List DietLabel) {s : List DietLabel} (h : s.Nodup) :
    (l.foldl setAdd s).Nodup := by
  induction l generalizing s with
  | nil => exact h
  | cons y rest ih => exact ih (nodup_setAdd h y)

theorem poiDiets_nodup (poi : Jobj) : (poiDiets poi).Nodup :=
  nodup_foldl_setAdd _ List.nodup_nil

theorem mem_poiDiets (poi : Jobj) (d : DietLabel) :
    d ∈ poiDiets poi ↔ d ∈ cuisineTokens poi ∨ d ∈ dietKeyLabels poi := by
  unfold poiDiets
  rw [mem_foldl_setAdd, List.mem_append]
  simp

theorem poiHasDietLabel_iff (poi : Jobj) (d : DietLabel) :
    poiHasDietLabel poi d ↔ d ∈ poiDiets poi := by
  rw [mem_poiDiets]
  unfold poiHasDietLabel cuisineTokens dietKeyLabels
  simp only [List.mem_map, List.mem_filter]
  constructor
  · rintro (⟨tok, htok, rfl⟩ | ⟨k, hk, hcond, rfl⟩)
    · exact Or.inl ⟨tok, htok, rfl⟩
    · exact Or.inr ⟨k, ⟨hk, hcond⟩, rfl⟩
  · rintro (⟨tok, htok, rfl⟩ | ⟨k, ⟨hk, hcond⟩, rfl⟩)
    · exact Or.inl ⟨tok, htok, rfl⟩
    · exact Or.inr ⟨k, hk, hcond, rfl⟩

/-! ## The aggregation map -/

theorem lookup_map_bump (m : List (DietLabel × Nat)) (e d : DietLabel) :
    (m.map (fun kv => if kv.1 = e then (kv.1, kv.2 + 1) else kv)).lookup d =
      (m.lookup d).map (fun c => if d = e then c + 1 else c) := by
  induction m with
  | nil => simp [List.lookup]
  | cons kv rest ih =>
    obtain ⟨k0, c0⟩ := kv
    by_cases hke : k0 = e
    · subst hke
      rw [List.map_cons, if_pos (show ((k0, c0) : DietLabel × Nat).1 = k0 from rfl)]
      by_cases hd : d = k0
      · subst hd
        rw [lookup_cons_self, lookup_cons_self]
        simp
      · rw [lookup_cons_of_ne _ _ hd, lookup_cons_of_ne _ _ hd, ih]
    · rw [List.map_cons, if_neg (show ¬ ((k0, c0) : DietLabel × Nat).1 = e from hke)]
      by_cases hd : d = k0
      · subst hd
        have hde : ¬ d = e := fun hh => hke (hh ▸ rfl)
        rw [lookup_cons_self, lookup_cons_self]
        simp [hde]
      · rw [lookup_cons_of_ne _ _ hd, lookup_cons_of_ne _ _ hd, ih]

theorem lookup_mapIncr (m : List (DietLabel × Nat)) (e d : DietLabel) :
    (mapIncr m e).lookup d =
      if d = e then some ((m.lookup d).getD 0 + 1) else m.lookup d := by
  unfold mapIncr
  by_cases h : (m.lookup e).isSome
  · rw [if_pos h, lookup_map_bump]
    by_cases hd : d = e
    · subst hd
      obtain ⟨c, hc⟩ := Option.isSome_iff_exists.mp h
      rw [hc]
      simp
    · rw [if_neg hd]
      cases m.lookup d with
      | none => simp
      | some c => simp [hd]
  · rw [if_neg h]
    have hn : m.lookup e = none := Option.not_isSome_iff_eq_none.mp h
    by_cases hd : d = e
    · subst hd
      rw [if_pos rfl, lookup_append_of_none _ hn, lookup_cons_self, hn]
      rfl
    · rw [if_neg hd]
      cases hl : m.lookup d with
      | some c => exact lookup_append_of_some _ hl
      | none =>
        rw [lookup_append_of_none _ hl, lookup_cons_of_ne _ _ hd]
        rfl

theorem keys_mapIncr (m : List (DietLabel × Nat)) (e : DietLabel) :
    (mapIncr m e).map Prod.fst =
      if e ∈ m.map Prod.fst then m.map Prod.fst else m.map Prod.fst ++ [e] := by
  unfold mapIncr
  by_cases h : (m.lookup e).isSome
  · rw [if_pos h, if_pos ((lookup_isSome_iff_mem_keys m e).mp h), List.map_map]
    apply List.map_congr_left
    intro kv _
    by_cases hk : kv.1 = e <;> simp [hk]
  · rw [if_neg h,
      if_neg (fun hm => h ((lookup_isSome_iff_mem_keys m e).mpr hm)), List.map_append]
    rfl

theorem foldl_mapIncr_flatMap (pois : List Jobj) (m : List (DietLabel × Nat)) :
    pois.foldl (fun m poi => (poiDiets poi).foldl mapIncr m) m =
      (dietStream pois).foldl mapIncr m := by
  induction pois generalizing m with
  | nil => rfl
  | cons poi rest ih =>
    unfold dietStream
    rw [List.foldl_cons, List.flatMap_cons, List.foldl_append, ih]
    rfl

theorem countLabel_append (d : DietLabel) (l1 l2 : List DietLabel) :
    countLabel d (l1 ++ l2) = countLabel d l1 + countLabel d l2 := by
  induction l1 with
  | nil => simp [countLabel]
  | cons x rest ih =>
    show (if x = d then 1 else 0) + countLabel d (rest ++ l2) =
      ((if x = d then 1 else 0) + countLabel d rest) + countLabel d l2
    rw [ih]
    omega

theorem countLabel_cons (d x : DietLabel) (rest : List DietLabel) :
    countLabel d (x :: rest) = (if x = d then 1 else 0) + countLabel d rest := rfl

theorem idxOfLabel_cons (d x : DietLabel) (rest : List DietLabel) :
    idxOfLabel d (x :: rest) = if x = d then 0 else idxOfLabel d rest + 1 := rfl

theorem countLabel_pos_iff_mem (d : DietLabel) (l : List DietLabel) :
    0 < countLabel d l ↔ d ∈ l := by
  induction l with
  | nil => simp [countLabel]
  | cons x rest ih =>
    unfold countLabel
    by_cases hx : x = d
    · subst hx
      simp
    · have : ¬ d = x := fun hh => hx hh.symm
      simp [hx, this, ih]

theorem countLabel_eq_one_of_mem {d : DietLabel} {l : List DietLabel} (hnd : l.Nodup)
    (hm : d ∈ l) : countLabel d l = 1 := by
  induction l with
  | nil => simp at hm
  | cons x rest ih =>
    simp only [List.nodup_cons] at hnd
    unfold countLabel
    rcases List.mem_cons.mp hm with rfl | hr
    · rw [if_pos rfl]
      have : ¬ 0 < countLabel d rest := fun hpos => hnd.1 ((countLabel_pos_iff_mem d rest).mp hpos)
      omega
    · have hx : ¬ x = d := by
        rintro rfl
        exact hnd.1 hr
      rw [if_neg hx, ih hnd.2 hr]

theorem countLabel_eq_zero_of_not_mem {d : DietLabel} {l : List DietLabel} (hm : d ∉ l) :
    countLabel d l = 0 := by
  have : ¬ 0 < countLabel d l := fun hpos => hm ((countLabel_pos_iff_mem d l).mp hpos)
  omega

theorem lookup_foldl_mapIncr (stream : List DietLabel) (m : List (DietLabel × Nat))
    (d : DietLabel) :
    (stream.foldl mapIncr m).lookup d =
      if (m.lookup d).isSome ∨ d ∈ stream then
        some ((m.lookup d).getD 0 + countLabel d stream)
      else none := by
  induction stream generalizing m with
  | nil =>
    by_cases h : (m.lookup d).isSome
    · obtain ⟨c, hc⟩ := Option.isSome_iff_exists.mp h
      simp [hc, countLabel]
    · have hn : m.lookup d = none := Option.not_isSome_iff_eq_none.mp h
      simp [hn, countLabel]
  | cons e rest ih =>
    rw [List.foldl_cons, ih, lookup_mapIncr]
    by_cases hd : d = e
    · subst hd
      rw [if_pos rfl]
      simp only [Option.isSome_some, true_or, if_true, Option.getD_some]
      rw [if_pos (Or.inr (List.mem_cons_self d rest)), countLabel_cons, if_pos rfl]
      congr 1
      omega
    · rw [if_neg hd]
      have hmem : (d ∈ e :: rest) ↔ d ∈ rest := by
        have : ¬ d = e := hd
        simp [List.mem_cons, this]
      have hcnt : countLabel d (e :: rest) = countLabel d rest := by
        rw [countLabel_cons, if_neg (fun hh => hd hh.symm)]
        omega
      rw [hcnt]
      by_cases hc : (m.lookup d).isSome ∨ d ∈ rest
      · rw [if_pos hc, if_pos (by rw [hmem]; exact hc)]
      · rw [if_neg hc, if_neg (by rw [hmem]; exact hc)]

theorem firstOccur_cons (d : DietLabel) (rest : List DietLabel) :
    firstOccur (d :: rest) = d :: (firstOccur rest).filter (fun x => decide (x ≠ d)) := rfl

theorem mem_firstOccur (l : List DietLabel) (x : DietLabel) :
    x ∈ firstOccur l ↔ x ∈ l := by
  induction l with
  | nil => simp [firstOccur]
  | cons d rest ih =>
    rw [firstOccur_cons]
    simp only [List.mem_cons, List.mem_filter]
    constructor
    · rintro (rfl | ⟨hm, _⟩)
      · exact Or.inl rfl
      · exact Or.inr (ih.mp hm)
    · rintro (rfl | hm)
      · exact Or.inl rfl
      · by_cases he : x = d
        · exact Or.inl he
        · exact Or.inr ⟨ih.mpr hm, by simpa using he⟩

theorem nodup_firstOccur (l : List DietLabel) : (firstOccur l).Nodup := by
  induction l with
  | nil => simp [firstOccur]
  | cons d rest ih =>
    rw [firstOccur_cons]
    refine List.Nodup.cons ?_ (ih.filter _)
    intro hmem
    have := (List.mem_filter.mp hmem).2
    simp at this

theorem keys_foldl_mapIncr (stream : List DietLabel) (m : List (DietLabel × Nat)) :
    (stream.foldl mapIncr m).map Prod.fst =
      m.map Prod.fst ++ (firstOccur stream).filter (fun d => decide (d ∉ m.map Prod.fst)) := by
  induction stream generalizing m with
  | nil => simp [firstOccur]
  | cons e rest ih =>
    rw [List.foldl_cons, ih, keys_mapIncr, firstOccur_cons, List.filter_cons]
    by_cases he : e ∈ m.map Prod.fst
    · rw [if_pos he, if_neg (by simpa using he), List.filter_filter]
      congr 1
      apply List.filter_congr
      intro x _
      by_cases hx : x ∈ m.map Prod.fst
      · simp [hx]
      · have : x ≠ e := fun hh => hx (hh ▸ he)
        simp [hx, this]
    · rw [if_neg he, if_pos (by simpa using he), List.filter_filter,
        List.append_assoc, List.singleton_append]
      congr 2
      apply List.filter_congr
      intro x _
      by_cases hx : x ∈ m.map Prod.fst
      · simp [hx, List.mem_append]
      · by_cases hxe : x = e
        · simp [hxe, List.mem_append]
        · simp [hx, hxe, List.mem_append]

theorem keys_agg (stream : List DietLabel) :
    (stream.foldl mapIncr []).map Prod.fst = firstOccur stream := by
  rw [keys_foldl_mapIncr]
  simp

theorem firstOccur_pair {stream : List DietLabel} {d1 d2 : DietLabel} (hne : d1 ≠ d2)
    (h1 : d1 ∈ stream) (h2 : d2 ∈ stream)
    (hlt : idxOfLabel d1 stream < idxOfLabel d2 stream) :
    List.Sublist [d1, d2] (firstOccur stream) := by
  induction stream with
  | nil => simp at h1
  | cons s rest ih =>
    by_cases hs1 : s = d1
    · subst hs1
      rw [firstOccur_cons]
      refine List.Sublist.cons₂ _ (List.singleton_sublist.mpr ?_)
      rw [List.mem_filter]
      have hd2 : d2 ∈ rest := by
        rcases List.mem_cons.mp h2 with rfl | hm
        · exact absurd rfl hne
        · exact hm
      exact ⟨(mem_firstOccur rest d2).mpr hd2, by simpa using (Ne.symm hne)⟩
    · by_cases hs2 : s = d2
      · subst hs2
        have h0 : idxOfLabel s (s :: rest) = 0 := by
          rw [idxOfLabel_cons, if_pos rfl]
        rw [h0] at hlt
        exact absurd hlt (Nat.not_lt_zero _)
      · have h1r : d1 ∈ rest := by
          rcases List.mem_cons.mp h1 with he | hm
          · exact absurd he.symm hs1
          · exact hm
        have h2r : d2 ∈ rest := by
          rcases List.mem_cons.mp h2 with he | hm
          · exact absurd he.symm hs2
          · exact hm
        rw [idxOfLabel_cons, if_neg hs1, idxOfLabel_cons, if_neg hs2] at hlt
        have hlt2 : idxOfLabel d1 rest < idxOfLabel d2 rest := by omega
        have hsub := ih h1r h2r hlt2
        rw [firstOccur_cons]
        refine List.Sublist.cons _ ?_
        have hf := hsub.filter (fun x => decide (x ≠ s))
        have heq : [d1, d2].filter (fun x => decide (x ≠ s)) = [d1, d2] := by
          have hd1 : d1 ≠ s := fun hh => hs1 hh.symm
          have hd2 : d2 ≠ s := fun hh => hs2 hh.symm
          simp [hd1, hd2]
        rw [heq] at hf
        exact hf

theorem pair_sublist_of_keys {m : List (DietLabel × Nat)} {d1 d2 : DietLabel} {c1 c2 : Nat}
    (hnd : (m.map Prod.fst).Nodup) (hne : d1 ≠ d2)
    (hk : List.Sublist [d1, d2] (m.map Prod.fst))
    (h1 : m.lookup d1 = some c1) (h2 : m.lookup d2 = some c2) :
    List.Sublist [(d1, c1), (d2, c2)] m := by
  induction m with
  | nil => simp at hk
  | cons kv rest ih =>
    obtain ⟨k0, v0⟩ := kv
    simp only [List.map_cons, List.nodup_cons] at hnd
    cases hk with
    | cons _ hk' =>
      have hd1r : d1 ∈ rest.map Prod.fst := hk'.subset (List.mem_cons_self _ _)
      have hd2r : d2 ∈ rest.map Prod.fst := hk'.subset (by simp)
      have hne1 : d1 ≠ k0 := fun hh => hnd.1 (hh ▸ hd1r)
      have hne2 : d2 ≠ k0 := fun hh => hnd.1 (hh ▸ hd2r)
      rw [lookup_cons_of_ne _ _ hne1] at h1
      rw [lookup_cons_of_ne _ _ hne2] at h2
      exact List.Sublist.cons _ (ih hnd.2 hk' h1 h2)
    | cons₂ _ hk'' =>
      rw [lookup_cons_self] at h1
      obtain rfl : v0 = c1 := by simpa using h1
      refine List.Sublist.cons₂ _ (List.singleton_sublist.mpr (mem_of_lookup_eq_some ?_))
      rw [lookup_cons_of_ne _ _ (Ne.symm hne)] at h2
      exact h2

theorem countLabel_dietStream (pois : List Jobj) (d : DietLabel) :
    countLabel d (dietStream pois) = pois.countP (fun poi => decide (d ∈ poiDiets poi)) := by
  induction pois with
  | nil => rfl
  | cons poi rest ih =>
    unfold dietStream at ih ⊢
    rw [List.flatMap_cons, countLabel_append, ih, List.countP_cons]
    by_cases hm : d ∈ poiDiets poi
    · rw [countLabel_eq_one_of_mem (poiDiets_nodup poi) hm]
      simp [hm]
      omega
    · rw [countLabel_eq_zero_of_not_mem hm]
      simp [hm]

theorem lookup_agg (stream : List DietLabel) (d : DietLabel) :
    (stream.foldl mapIncr []).lookup d =
      if d ∈ stream then some (countLabel d stream) else none := by
  rw [lookup_foldl_mapIncr]
  by_cases hm : d ∈ stream
  · rw [if_pos (Or.inr hm), if_pos hm]
    simp [List.lookup]
  · rw [if_neg hm, if_neg]
    rintro (hs | hmem)
    · exact absurd hs (by simp [List.lookup])
    · exact hm hmem

theorem nodup_keys_agg (stream : List DietLabel) :
    ((stream.foldl mapIncr []).map Prod.fst).Nodup := by
  rw [keys_agg]
  exact nodup_firstOccur stream

theorem extractDiets_entry_iff (pois : List Jobj) (d : DietLabel) (c : Nat) :
    (d, c) ∈ extractDiets pois ↔
      0 < c ∧ c = pois.countP (fun poi => decide (d ∈ poiDiets poi)) := by
  simp only [extractDiets]
  rw [List.mem_insertionSort, foldl_mapIncr_flatMap,
    mem_iff_lookup_of_nodup (nodup_keys_agg (dietStream pois)),
    lookup_agg]
  by_cases hm : d ∈ dietStream pois
  · rw [if_pos hm]
    constructor
    · intro h
      have hc : countLabel d (dietStream pois) = c := by simpa using h
      refine ⟨?_, ?_⟩
      · rw [← hc]
        exact (countLabel_pos_iff_mem d _).mpr hm
      · rw [← hc, countLabel_dietStream]
    · rintro ⟨hpos, hc⟩
      rw [hc, countLabel_dietStream]
  · rw [if_neg hm]
    constructor
    · intro h
      exact absurd h (by simp)
    · rintro ⟨hpos, hc⟩
      exfalso
      apply hm
      rw [← countLabel_pos_iff_mem, countLabel_dietStream, ← hc]
      exact hpos

theorem extractDiets_sorted_all (pois : List Jobj) :
    (extractDiets pois).Sorted dietEntryGE := by
  simp only [extractDiets]
  exact List.sorted_insertionSort dietEntryGE _

theorem extractDiets_pair_core {pois : List Jobj} {d1 d2 : DietLabel} {c : Nat}
    (hne : d1 ≠ d2) (h1 : (d1, c) ∈ extractDiets pois) (h2 : (d2, c) ∈ extractDiets pois)
    (hlt : idxOfLabel d1 (dietStream pois) < idxOfLabel d2 (dietStream pois)) :
    List.Sublist [(d1, c), (d2, c)] (extractDiets pois) := by
  simp only [extractDiets] at h1 h2 ⊢
  rw [List.mem_insertionSort, foldl_mapIncr_flatMap] at h1 h2
  have hnd := nodup_keys_agg (dietStream pois)
  have hl1 := (mem_iff_lookup_of_nodup hnd d1 c).mp h1
  have hl2 := (mem_iff_lookup_of_nodup hnd d2 c).mp h2
  have hm1 : d1 ∈ dietStream pois := by
    have := List.mem_map_of_mem Prod.fst (mem_of_lookup_eq_some hl1)
    rw [keys_agg, mem_firstOccur] at this
    exact this
  have hm2 : d2 ∈ dietStream pois := by
    have := List.mem_map_of_mem Prod.fst (mem_of_lookup_eq_some hl2)
    rw [keys_agg, mem_firstOccur] at this
    exact this
  have hk : List.Sublist [d1, d2] (((dietStream pois).foldl mapIncr []).map Prod.fst) := by
    rw [keys_agg]
    exact firstOccur_pair hne hm1 hm2 hlt
  have hpair := pair_sublist_of_keys hnd hne hk hl1 hl2
  rw [foldl_mapIncr_flatMap]
  exact List.pair_sublist_insertionSort (Nat.le_refl c) hpair

/-! ## Inversion of `wikipediaQuery` -/

theorem mapM_ok_mem {f : Jval → Except JsErr Jval} :
    ∀ {es out : List Jval}, es.mapM f = .ok out → ∀ a ∈ out, ∃ x ∈ es, f x = .ok a := by
  intro es
  induction es with
  | nil =>
    intro out h a ha
    obtain rfl : ([] : List Jval) = out := Except.ok.inj h
    simp at ha
  | cons x rest ih =>
    intro out h a ha
    rw [List.mapM_cons] at h
    cases hf : f x with
    | error e =>
      rw [hf] at h
      exact Except.noConfusion h
    | ok b =>
      rw [hf] at h
      cases hr : rest.mapM f with
      | error e =>
        rw [hr] at h
        exact Except.noConfusion h
      | ok bs =>
        rw [hr] at h
        obtain rfl : b :: bs = out := Except.ok.inj h
        rcases List.mem_cons.mp ha with rfl | hm
        · exact ⟨x, List.mem_cons_self _ _, hf⟩
        · obtain ⟨y, hy, hfy⟩ := ih hr a hm
          exact ⟨y, List.mem_cons_of_mem _ hy, hfy⟩

theorem wikipediaAttachUrl_ok {language : String} {a b : Jval}
    (h : wikipediaAttachUrl language a = .ok b) :
    ∃ o : Jobj, a = .obj o ∧
      b = .obj (setProp o "url"
        (.str ("https://" ++ language ++ ".wikipedia.org/wiki/" ++ (getProp o "title").render))) := by
  unfold wikipediaAttachUrl at h
  cases ht : jsGet a "title" with
  | error e =>
    rw [ht] at h
    exact Except.noConfusion h
  | ok t =>
    rw [ht] at h
    cases a with
    | obj o =>
      obtain rfl : t = getProp o "title" := by
        have hh : jsGet (Jval.obj o) "title" = .ok (getProp o "title") := rfl
        rw [hh] at ht
        exact (Except.ok.inj ht).symm
      exact ⟨o, rfl, (Except.ok.inj h).symm⟩
    | undefined => exact Except.noConfusion h
    | null => exact Except.noConfusion h
    | str s => exact Except.noConfusion h
    | num n => exact Except.noConfusion h
    | arr es => exact Except.noConfusion h

theorem wikipediaQuery_record {d : Jval} {lat lon : Int} {language : String}
    {radius limit : Int} {out : List Jval}
    (h : wikipediaQuery d lat lon language radius limit = .ok out) :
    ∀ a ∈ out, ∃ o : Jobj, a = .obj o ∧
      getProp o "url" =
        .str ("https://" ++ language ++ ".wikipedia.org/wiki/" ++ (getProp o "title").render) := by
  intro a ha
  unfold wikipediaQuery at h
  cases hq : jsGet d "query" with
  | error e =>
    rw [hq] at h
    exact Except.noConfusion h
  | ok q =>
    rw [hq] at h
    have h3 : (do
        let gs ← jsGet q "geosearch"
        match gs with
        | Jval.arr es => es.mapM (wikipediaAttachUrl language)
        | _ => Except.error (JsErr.typeError "d.query.geosearch.map is not a function")
        : Except JsErr (List Jval)) = Except.ok out := h
    cases hg : jsGet q "geosearch" with
    | error e =>
      rw [hg] at h3
      exact Except.noConfusion h3
    | ok gs =>
      rw [hg] at h3
      cases gs with
      | arr es =>
        obtain ⟨x, _, hfx⟩ := mapM_ok_mem h3 a ha
        obtain ⟨o, rfl, rfl⟩ := wikipediaAttachUrl_ok hfx
        refine ⟨_, rfl, ?_⟩
        rw [getProp_setProp_self,
          getProp_setProp_ne _ _ (show "title" ≠ "url" by decide)]
      | undefined => exact Except.noConfusion h3
      | null => exact Except.noConfusion h3
      | str s => exact Except.noConfusion h3
      | num n => exact Except.noConfusion h3
      | obj o => exact Except.noConfusion h3

/-! ## Claim theorems -/

/-- C1 counterexample: a response element with raw `type` `"way"` and a
`members` array is returned with its `type` field still `"way"` (not
`"relation"`), although its derived URLs do use `relation` — the claim
that the returned record's `type` field equals `"relation"` is false. -/
theorem c1_type_not_forced_counterexample :
    (openstreetmapGetPOIs "37.8,-122.3,37.8,-122.2" cafeCats c1data).map
        (fun out => out.map (fun p =>
          (getProp p "type", (getProp p "members").truthy, getProp p "osm_url"))) =
      .ok [(.str "way", true, .str "https://www.openstreetmap.org/relation/1")] ∧
    Jval.str "way" ≠ Jval.str "relation" := by
  constructor
  · rfl
  · intro h
    exact absurd (Jval.str.inj h) (by decide)

/-- C1 (amended): for every element returned by `openstreetmapGetPOIs`
whose record carries a truthy `members` field, the derived `osm_url` and
`osm_url_edit` use `"relation"` as the type, whatever the record's own
`type` field holds. -/
theorem c1_relation_urls {bbox : String} {cats : List Jval} {data : Jval} {out : List Jobj}
    (h : openstreetmapGetPOIs bbox cats data = .ok out) {p : Jobj} (hp : p ∈ out)
    (hm : (getProp p "members").truthy = true) :
    getProp p "osm_url" =
      .str ("https://www.openstreetmap.org/relation/" ++ (getProp p "id").render) ∧
    getProp p "osm_url_edit" =
      .str ("https://www.openstreetmap.org/edit?relation=" ++ (getProp p "id").render) := by
  obtain ⟨es, kept, _, _, rfl⟩ := openstreetmapGetPOIs_ok h
  obtain ⟨p0, _, rfl⟩ := List.mem_map.mp hp
  have hmem : getProp (mergeTags p0) "members" = getProp (processElement p0) "members" :=
    (getProp_processElement_ne p0 (by decide) (by decide) (by decide)).symm
  have hty : elemType (mergeTags p0) = "relation" := by
    unfold elemType
    rw [hmem, hm]
    rfl
  constructor
  · rw [getProp_processElement_osm_url, hty, getProp_id_processElement]
    rfl
  · rw [getProp_processElement_osm_url_edit, hty, getProp_id_processElement]
    rfl

/-- Witness for C1 (amended), on the concrete way-typed element carrying
`members`. -/
theorem c1_relation_urls_witness :
    openstreetmapGetPOIs "37.8,-122.3,37.8,-122.2" cafeCats c1data =
        .ok [processElement c1elem] ∧
    (getProp (processElement c1elem) "members").truthy = true ∧
    (getProp (processElement c1elem) "osm_url" =
        .str ("https://www.openstreetmap.org/relation/" ++
          (getProp (processElement c1elem) "id").render) ∧
      getProp (processElement c1elem) "osm_url_edit" =
        .str ("https://www.openstreetmap.org/edit?relation=" ++
          (getProp (processElement c1elem) "id").render)) :=
  ⟨rfl, rfl,
    c1_relation_urls
      (show openstreetmapGetPOIs "37.8,-122.3,37.8,-122.2" cafeCats c1data =
        .ok [processElement c1elem] from rfl)
      (List.mem_singleton.mpr rfl) rfl⟩

/-- C2: `openstreetmapGetRestaurants` passes object-shaped categories to
`openstreetmapGetPOIs`, whose `forEach(([key, value]) => ...)` array
destructuring throws `TypeError` on them, so every call rejects before any
query is issued — whereas with the intended `[key, value]` pairs the query
construction succeeds and contains the `node`/`way`/`relation` filters for
`amenity=cafe` and `amenity=restaurant` over the demo bounding box. -/
theorem c2_restaurants_categories_bug :
    (∀ data : Jval, openstreetmapGetRestaurants data =
      .error (.typeError "object is not iterable")) ∧
    buildQuest "37.8,-122.3,37.8,-122.2"
        [.arr [.str "amenity", .str "cafe"], .arr [.str "amenity", .str "restaurant"]] =
      .ok (questPart "37.8,-122.3,37.8,-122.2" "amenity" "cafe" ++
        questPart "37.8,-122.3,37.8,-122.2" "amenity" "restaurant") := by
  constructor
  · intro data
    rfl
  · rfl

/-- C3 counterexample: an element whose `tags` is the empty object carries
no tag at all, yet it is retained by the filter (`{}` is truthy) — the
claim that every element without any tag is discarded is false. -/
theorem c3_empty_tags_retained_counterexample :
    (openstreetmapGetPOIs "37.8,-122.3,37.8,-122.2" cafeCats c3data).map List.length =
      .ok 1 ∧
    jsGetD c3elem "tags" = .obj [] := ⟨rfl, rfl⟩

/-- C3 (amended): `openstreetmapGetPOIs` retains exactly the response
elements whose `tags` value is truthy: every element whose `tags` field is
a (possibly empty) object is retained and normalized, and elements lacking
a `tags` field are discarded; the retained count is the count of
truthy-`tags` elements. -/
theorem c3_filter_by_truthy_tags {bbox : String} {cats : List Jval} {data : Jval}
    {out : List Jobj} {elems : List Jval}
    (h : openstreetmapGetPOIs bbox cats data = .ok out)
    (he : jsGet data "elements" = .ok (.arr elems)) :
    out.length = elems.countP (fun p => (jsGetD p "tags").truthy) ∧
    ∀ p ∈ elems, (jsGetD p "tags").truthy = true → processElement p ∈ out := by
  obtain ⟨es, kept, he2, hf, rfl⟩ := openstreetmapGetPOIs_ok h
  obtain rfl : es = elems := by
    rw [he2] at he
    exact Jval.arr.inj (Except.ok.inj he)
  obtain ⟨hlen, hmem⟩ := filterTruthyTags_ok hf
  constructor
  · rw [List.length_map, hlen]
  · intro p hp hpt
    exact List.mem_map_of_mem processElement (hmem p hp hpt)

/-- Witness for C3 (amended), on a response with one tagged element. -/
theorem c3_filter_by_truthy_tags_witness :
    openstreetmapGetPOIs "37.8,-122.3,37.8,-122.2" cafeCats c3data =
        .ok [processElement c3elem] ∧
    ([processElement c3elem].length =
        [c3elem].countP (fun p => (jsGetD p "tags").truthy) ∧
      ∀ p ∈ [c3elem], (jsGetD p "tags").truthy = true →
        processElement p ∈ [processElement c3elem]) :=
  ⟨rfl,
    c3_filter_by_truthy_tags
      (show openstreetmapGetPOIs "37.8,-122.3,37.8,-122.2" cafeCats c3data =
        .ok [processElement c3elem] from rfl)
      (show jsGet c3data "elements" = .ok (.arr [c3elem]) from rfl)⟩

/-- C4: a label's count in `extractDiets` is exactly the number of POIs
whose label set (union of the trimmed lower-cased semicolon-split
`cuisine` tokens and the colon-suffixes of `diet*`-keys valued exactly
`"yes"`) contains it — each POI contributes at most one increment per
distinct label — and the specification's three-POI example yields
`thai = 1`, `italian = 1`, `vegan = 1`. -/
theorem c4_diet_label_counts :
    (∀ (pois : List Jobj) (d : DietLabel) (c : Nat),
      (d, c) ∈ extractDiets pois ↔
        0 < c ∧ c = pois.countP (fun poi => decide (poiHasDietLabel poi d))) ∧
    extractDiets c4examplePois =
      [(some "thai", 1), (some "italian", 1), (some "vegan", 1)] := by
  constructor
  · intro pois d c
    have hcong : pois.countP (fun poi => decide (d ∈ poiDiets poi)) =
        pois.countP (fun poi => decide (poiHasDietLabel poi d)) :=
      List.countP_congr (fun poi _ => by
        simp only [decide_eq_true_eq]
        exact (poiHasDietLabel_iff poi d).symm)
    rw [extractDiets_entry_iff, hcong]
  · decide

/-- C5: the pair list `extractDiets` returns is sorted by descending count
(`dietEntryGE`), and for two labels with the same count the one
encountered first while scanning the POI list (position in the label
stream `dietStream`) keeps the earlier position — the stable sort
preserves first-seen order on ties. -/
theorem c5_sorted_stable :
    (∀ pois : List Jobj, (extractDiets pois).Sorted dietEntryGE) ∧
    (∀ (pois : List Jobj) (d1 d2 : DietLabel) (c : Nat), d1 ≠ d2 →
      (d1, c) ∈ extractDiets pois → (d2, c) ∈ extractDiets pois →
      idxOfLabel d1 (dietStream pois) < idxOfLabel d2 (dietStream pois) →
      List.Sublist [(d1, c), (d2, c)] (extractDiets pois)) :=
  ⟨extractDiets_sorted_all,
   fun _ _ _ _ hne h1 h2 hlt => extractDiets_pair_core hne h1 h2 hlt⟩

/-- Witness for C5: two one-cuisine POIs tie at count 1 and keep their
first-seen order in the sorted output. -/
theorem c5_sorted_stable_witness :
    (extractDiets c5pois).Sorted dietEntryGE ∧
    List.Sublist [(some "thai", 1), (some "italian", 1)] (extractDiets c5pois) :=
  ⟨c5_sorted_stable.1 c5pois,
   c5_sorted_stable.2 c5pois (some "thai") (some "italian") 1 (by decide) (by decide)
     (by decide) (by decide)⟩

/-- C6: every record returned by `openstreetmapGetPOIs` has no `tags` key
any more, and carries `osm_url` and `osm_url_edit` built from its
(members-aware) type and its id; moreover every tag of the raw payload is
merged into the top-level record (verbatim for every key other than the
removed container `tags` and the derived fields `website`, `osm_url`,
`osm_url_edit`). -/
theorem c6_pois_normalized :
    (∀ (bbox : String) (cats : List Jval) (data : Jval) (out : List Jobj),
      openstreetmapGetPOIs bbox cats data = .ok out →
      ∀ p ∈ out, p.lookup "tags" = none ∧
        getProp p "osm_url" = .str ("https://www.openstreetmap.org/" ++ elemType p ++ "/" ++
          (getProp p "id").render) ∧
        getProp p "osm_url_edit" = .str ("https://www.openstreetmap.org/edit?" ++ elemType p ++
          "=" ++ (getProp p "id").render)) ∧
    (∀ (p0 : Jval) (tagsObj : Jobj) (k : String) (v : Jval),
      jsGetD p0 "tags" = .obj tagsObj → (tagsObj.map Prod.fst).Nodup →
      tagsObj.lookup k = some v →
      k ∉ (["tags", "website", "osm_url", "osm_url_edit"] : List String) →
      getProp (processElement p0) k = v) := by
  constructor
  · intro bbox cats data out h p hp
    obtain ⟨es, kept, _, _, rfl⟩ := openstreetmapGetPOIs_ok h
    obtain ⟨p0, _, rfl⟩ := List.mem_map.mp hp
    refine ⟨lookup_tags_processElement p0, ?_, ?_⟩
    · rw [getProp_processElement_osm_url, elemType_processElement, getProp_id_processElement]
    · rw [getProp_processElement_osm_url_edit, elemType_processElement,
        getProp_id_processElement]
  · intro p0 tagsObj k v htags hnd hk hnot
    simp only [List.mem_cons, List.mem_singleton, not_or] at hnot
    exact getProp_processElement_tag p0 tagsObj htags hnd hk
      hnot.1 hnot.2.2.1 hnot.2.2.2.1 hnot.2.1

/-- Witness for C6, on a tagged cafe node: the pipeline output has no
`tags` key, carries both URLs, and the `amenity` tag is merged to the top
level. -/
theorem c6_pois_normalized_witness :
    openstreetmapGetPOIs "37.8,-122.3,37.8,-122.2" cafeCats c6data =
        .ok [processElement c6elem] ∧
    ((processElement c6elem).lookup "tags" = none ∧
      getProp (processElement c6elem) "osm_url" =
        .str ("https://www.openstreetmap.org/" ++ elemType (processElement c6elem) ++ "/" ++
          (getProp (processElement c6elem) "id").render) ∧
      getProp (processElement c6elem) "osm_url_edit" =
        .str ("https://www.openstreetmap.org/edit?" ++ elemType (processElement c6elem) ++
          "=" ++ (getProp (processElement c6elem) "id").render)) ∧
    getProp (processElement c6elem) "amenity" = .str "cafe" :=
  ⟨rfl,
   c6_pois_normalized.1 "37.8,-122.3,37.8,-122.2" cafeCats c6data [processElement c6elem]
     (show openstreetmapGetPOIs "37.8,-122.3,37.8,-122.2" cafeCats c6data =
       .ok [processElement c6elem] from rfl)
     (processElement c6elem) (List.mem_singleton.mpr rfl),
   c6_pois_normalized.2 c6elem [("amenity", .str "cafe"), ("name", .str "Bar")] "amenity"
     (.str "cafe") rfl (by decide) rfl (by decide)⟩

/-- C7 counterexample: a geosearch body carrying the field `error` with
the falsy value `null` is not rejected — the call returns the geosearch
list — so "fails for every body carrying an `error` field" is false: the
code tests truthiness, not field presence. -/
theorem c7_falsy_error_counterexample :
    wikimediaQuery (.obj c7obj) = .ok (.arr [.obj [("title", .str "pic")]]) ∧
    (c7obj.lookup "error").isSome = true := ⟨rfl, rfl⟩

/-- C7 (amended): `wikimediaQuery` rejects with exactly `d.error` whenever
that value is truthy (a MediaWiki error object always is), returning no
list at all; when `d.error` is falsy the call instead returns
`d.query.geosearch`, or `[]` when that value is falsy. -/
theorem c7_error_truthiness (o : Jobj) :
    ((getProp o "error").truthy = true →
      wikimediaQuery (.obj o) = .error (.rejected (getProp o "error"))) ∧
    ((getProp o "error").truthy = false → ∀ gs : Jval,
      jsGet (getProp o "query") "geosearch" = .ok gs →
      wikimediaQuery (.obj o) = .ok (if gs.truthy then gs else .arr [])) := by
  have hred : wikimediaQuery (Jval.obj o) =
      (if (getProp o "error").truthy then Except.error (JsErr.rejected (getProp o "error"))
       else do
         let q ← jsGet (Jval.obj o) "query"
         let gs ← jsGet q "geosearch"
         pure (if gs.truthy then gs else Jval.arr [])) := rfl
  constructor
  · intro ht
    rw [hred, if_pos ht]
  · intro hf gs hgs
    rw [hred, if_neg (by rw [hf]; exact Bool.false_ne_true)]
    have h2 : (do
        let q ← jsGet (Jval.obj o) "query"
        let gs2 ← jsGet q "geosearch"
        pure (if gs2.truthy then gs2 else Jval.arr [])
        : Except JsErr Jval) =
      (do
        let gs2 ← jsGet (getProp o "query") "geosearch"
        pure (if gs2.truthy then gs2 else Jval.arr [])
        : Except JsErr Jval) := rfl
    rw [h2, hgs]
    rfl

/-- Witness for C7 (amended): a truthy error object is surfaced verbatim,
and with a falsy error the geosearch list is returned. -/
theorem c7_error_truthiness_witness :
    (getProp c7errObj "error").truthy = true ∧
    wikimediaQuery (.obj c7errObj) = .error (.rejected (getProp c7errObj "error")) ∧
    ((getProp c7obj "error").truthy = false ∧
      jsGet (getProp c7obj "query") "geosearch" =
        .ok (.arr [.obj [("title", .str "pic")]]) ∧
      wikimediaQuery (.obj c7obj) =
        .ok (if (Jval.arr [.obj [("title", .str "pic")]]).truthy
          then Jval.arr [.obj [("title", .str "pic")]] else .arr [])) :=
  ⟨rfl, (c7_error_truthiness c7errObj).1 rfl,
   rfl, rfl, (c7_error_truthiness c7obj).2 rfl _ rfl⟩

/-- C8: when the requested page id is absent from the per-page mapping the
batch query returned, `wikimediaInfo` fails with the lookup `TypeError`
raised by reading `imageinfo` on `undefined` — it never produces a result
for a missing page. -/
theorem c8_missing_page_fails (d : Jval) (pages : Jobj) (pid : Int)
    (hb : wikimediaInfoMultiplePages d = .ok (.obj pages))
    (hm : pages.lookup (intToString pid) = none) :
    wikimediaInfo d pid =
      .error (.typeError "Cannot read properties of undefined (reading imageinfo)") := by
  unfold wikimediaInfo
  rw [hb]
  show (do
      let entry ← jsGet (Jval.obj pages) (intToString pid)
      wikimediaInfoOf entry : Except JsErr Jobj) =
    .error (.typeError "Cannot read properties of undefined (reading imageinfo)")
  have h1 : jsGet (Jval.obj pages) (intToString pid) = .ok Jval.undefined := by
    show Except.ok (getProp pages (intToString pid)) = .ok Jval.undefined
    unfold getProp
    rw [hm]
  rw [h1]
  rfl

/-- Witness for C8: requesting page 5 from a batch holding only page 10
rejects with the lookup error. -/
theorem c8_missing_page_fails_witness :
    wikimediaInfoMultiplePages c8data =
        .ok (.obj [("10", .obj [("title", .str "File:A.jpg")])]) ∧
    ([("10", Jval.obj [("title", Jval.str "File:A.jpg")])] : Jobj).lookup (intToString 5) =
        none ∧
    wikimediaInfo c8data 5 =
      .error (.typeError "Cannot read properties of undefined (reading imageinfo)") :=
  ⟨rfl, rfl,
   c8_missing_page_fails c8data [("10", .obj [("title", .str "File:A.jpg")])] 5 rfl rfl⟩

/-- C9: every record `wikipediaQuery` returns carries a `url` equal to
`https://{language}.wikipedia.org/wiki/{title}` for that record's title;
with all parameters omitted the defaults `37`, `-122`, `"en"`, `10000`,
`100` apply, so the urls use `https://en.wikipedia.org/wiki/` and the
request URL is the default-parameter one. -/
theorem c9_wikipedia_urls :
    (∀ (d : Jval) (lat lon : Int) (language : String) (radius limit : Int)
      (out : List Jval) (a : Jval),
      wikipediaQuery d lat lon language radius limit = .ok out → a ∈ out →
      ∃ o : Jobj, a = .obj o ∧ getProp o "url" =
        .str ("https://" ++ language ++ ".wikipedia.org/wiki/" ++ (getProp o "title").render)) ∧
    (∀ (d : Jval) (out : List Jval) (a : Jval), wikipediaQuery d = .ok out → a ∈ out →
      ∃ o : Jobj, a = .obj o ∧ getProp o "url" =
        .str ("https://en.wikipedia.org/wiki/" ++ (getProp o "title").render)) ∧
    wikipediaQueryUrl =
      "https://en.wikipedia.org/w/api.php?action=query&list=geosearch&gscoord=37%7C-122&gsradius=10000&gslimit=100&origin=*&format=json" := by
  refine ⟨?_, ?_, ?_⟩
  · intro d lat lon language radius limit out a h ha
    exact wikipediaQuery_record h a ha
  · intro d out a h ha
    obtain ⟨o, rfl, hurl⟩ := wikipediaQuery_record h a ha
    exact ⟨o, rfl, hurl⟩
  · rfl

/-- Witness for C9: the default-parameter query on a one-hit body yields
the record augmented with its `en`-wiki url. -/
theorem c9_wikipedia_urls_witness :
    wikipediaQuery c9data =
        .ok [.obj [("pageid", .num 1), ("title", .str "Berkeley"),
          ("url", .str "https://en.wikipedia.org/wiki/Berkeley")]] ∧
    (∃ o : Jobj,
      (Jval.obj [("pageid", .num 1), ("title", .str "Berkeley"),
        ("url", .str "https://en.wikipedia.org/wiki/Berkeley")]) = .obj o ∧
      getProp o "url" =
        .str ("https://en.wikipedia.org/wiki/" ++ (getProp o "title").render)) :=
  ⟨rfl,
   c9_wikipedia_urls.2.1 c9data
     [.obj [("pageid", .num 1), ("title", .str "Berkeley"),
       ("url", .str "https://en.wikipedia.org/wiki/Berkeley")]]
     (.obj [("pageid", .num 1), ("title", .str "Berkeley"),
       ("url", .str "https://en.wikipedia.org/wiki/Berkeley")])
     (show wikipediaQuery c9data = .ok [.obj [("pageid", .num 1), ("title", .str "Berkeley"),
       ("url", .str "https://en.wikipedia.org/wiki/Berkeley")]] from rfl)
     (List.mem_singleton.mpr rfl)⟩

/-- C10: a tag whose key starts with `diet` but has no colon (such as the
bare key `diet`) and whose value is exactly `"yes"` contributes the
nameless label (`key.split(":").at(1)` is `undefined`, modelled `none`) to
the POI's diet set; the nameless label is aggregated and counted like any
other and appears as an entry of the output pair list. -/
theorem c10_bare_diet_key (pois : List Jobj) (poi : Jobj) (k : String)
    (hpoi : poi ∈ pois) (hk : k ∈ jsKeys poi) (hpre : jsStartsWith k "diet" = true)
    (hyes : isStrYes (getProp poi k) = true) (hsplit : jsSplit k ':' = [k]) :
    ∃ c : Nat, 0 < c ∧ ((none : DietLabel), c) ∈ extractDiets pois := by
  have hlbl : (none : DietLabel) ∈ poiDiets poi := by
    apply (mem_poiDiets poi none).mpr
    right
    unfold dietKeyLabels
    refine List.mem_map.mpr ⟨k, List.mem_filter.mpr ⟨hk, ?_⟩, ?_⟩
    · rw [hpre, hyes]
      rfl
    · rw [hsplit]
      rfl
  have hpos : 0 < pois.countP (fun poi => decide ((none : DietLabel) ∈ poiDiets poi)) :=
    List.countP_pos_iff.mpr ⟨poi, hpoi, by simpa using hlbl⟩
  exact ⟨_, hpos, (extractDiets_entry_iff pois none _).mpr ⟨hpos, rfl⟩⟩

/-- Witness for C10: one POI with the bare tag `diet=yes` makes the
nameless label appear in the output. -/
theorem c10_bare_diet_key_witness :
    ∃ c : Nat, 0 < c ∧ ((none : DietLabel), c) ∈ extractDiets c10pois :=
  c10_bare_diet_key c10pois [("diet", .str "yes")] "diet" (List.mem_singleton.mpr rfl)
    (by decide) (by decide) (by decide) (by decide)
